import Mathlib

/-!
Verification of the flatmap-viewer feature-annotation indexing and
style-filter engine.

The developments below shallowly embed the JavaScript/TypeScript sources:

* `PropertiesFilter` from `src/layers/filter.js`: the filter-tree value
  type, its `match` evaluator, its `makeStyleFilter` compiler and its
  mutators (`clear`, `narrow`, `expand`, `invert`, `setFilter`).
* The `LayerManager` facet registry from `src/layers/flightpaths.ts`
  (`addFilteredFacet` / `#updatedFilters`).
* The annotation reverse indices and identifier resolution chain of the
  `FlatMap` class (`#updateFeatureIdMapEntry`, `#updateFeatureIdMap`,
  `#saveAnnotation`, `modelFeatureIds`, `modelFeatureIdList`,
  `taxonFeatureIds`).

JavaScript values are modelled by explicit inductive types; JS `Map`s by
insertion-ordered association lists; exceptions by `Except`.  Functions
whose sources are not part of the repository snapshot (`utils.normaliseId`,
the connectivity resolver) are taken as parameters, with any property
required of them stated as an explicit hypothesis.
-/

namespace FlatmapViewer

/-- JavaScript scalar values that occur in annotation properties and in
filter expressions: strings, numbers and booleans. -/
inductive JSValue where
  | str (s : String)
  | num (n : Int)
  | bool (b : Bool)
deriving DecidableEq, Repr

/-- Truthiness of a JS scalar, as used by the coercions in the source. -/
def JSValue.truthy : JSValue → Bool
  | .str s => !s.isEmpty
  | .num n => n ≠ 0
  | .bool b => b

/-- The value stored under one key of a properties dictionary: a scalar or
an array of scalars. -/
inductive PValue where
  | scalar (v : JSValue)
  | list (vs : List JSValue)
deriving DecidableEq, Repr

/-- A properties dictionary, modelled as an insertion-ordered association
list of key/value pairs. -/
def Props := List (String × PValue)

/-- Reads a key from a properties dictionary (first binding wins, as for a
JS object). -/
def getProp : Props → String → Option PValue
  | [], _ => none
  | (k', v) :: rest, k => if k' = k then some v else getProp rest k

/-- The JS `key in properties` test. -/
def hasKey (p : Props) (k : String) : Bool :=
  (getProp p k).isSome

mutual

/-- A `PropertiesFilter` value (`src/layers/filter.js`): either a boolean
literal or a filter-tree object, the object being its ordered list of
key/expression entries. -/
inductive Filter where
  | lit (b : Bool)
  | obj (es : List FEntry)

/-- One key/expression entry of a filter-tree object.  `AND`/`OR` carry a
list of sub-filters (a non-array operand behaves exactly like a too-short
array: both evaluators only use the list when it has at least two
elements).  `HAS` carries the tested key, `NOT` a sub-filter, and a plain
key carries either a scalar expression or an array of scalars. -/
inductive FEntry where
  | andE (fs : List Filter)
  | orE (fs : List Filter)
  | hasE (k : String)
  | notE (f : Filter)
  | kv (k : String) (v : JSValue)
  | kvList (k : String) (vs : List JSValue)

end

mutual

/-- The `match(properties)` evaluator of `PropertiesFilter` (`#match` in
`src/layers/filter.js`). -/
def matchFilter (p : Props) : Filter → Bool
  | .lit b => b
  | .obj es => matchEntries p es

/-- All entries of one object node must individually match. -/
def matchEntries (p : Props) : List FEntry → Bool
  | [] => true
  | e :: es => matchEntry p e && matchEntries p es

/-- Evaluates one filter-tree entry against a properties dictionary,
following the branch structure of `#match`. -/
def matchEntry (p : Props) : FEntry → Bool
  | .andE fs => if 2 ≤ fs.length then matchAll p fs else true
  | .orE fs => if 2 ≤ fs.length then matchAny p fs else true
  | .hasE k => hasKey p k
  | .notE f => ! matchFilter p f
  | .kv k v =>
      match getProp p k with
      | none => true
      | some (.scalar pv) => decide (pv = v)
      | some (.list pvs) => decide (v ∈ pvs)
  | .kvList k vs =>
      match getProp p k with
      | none => true
      | some (.scalar pv) => decide (pv ∈ vs)
      | some (.list pvs) => pvs.any (fun pv => decide (pv ∈ vs))

/-- The AND-reduce of `#match` over the operand list. -/
def matchAll (p : Props) : List Filter → Bool
  | [] => true
  | f :: fs => matchFilter p f && matchAll p fs

/-- The OR-reduce of `#match` over the operand list. -/
def matchAny (p : Props) : List Filter → Bool
  | [] => false
  | f :: fs => matchFilter p f || matchAny p fs

end

/-! Compilation to the renderer's style-filter expressions. -/

/-- A value of the renderer's style-filter expression language, as built by
`#makeStyleFilter`: a JS scalar (operator name, key name, comparison value
or boolean) or a nested array. -/
inductive SExpr where
  | lit (v : JSValue)
  | arr (xs : List SExpr)

/-- Shorthand for a string leaf of a style-filter expression. -/
def strLit (s : String) : SExpr := .lit (.str s)

/-- The negation step of `#makeStyleFilter`'s `NOT` branch, applied to a
compiled sub-expression that is an array: the two algebraic
simplifications (`has`/`!has` swap for two-element expressions,
`==`/`!=` swap for three-element comparisons), falling back to the
generic `!` wrapper. -/
def negArr (xs : List SExpr) : List SExpr :=
  match xs with
  | [SExpr.lit (.str s), x] =>
      if s = "has" then [strLit "!has", x]
      else if s = "!has" then [strLit "has", x]
      else [strLit "!", .arr xs]
  | [SExpr.lit (.str s), x, y] =>
      if s = "==" then [strLit "!=", x, y]
      else if s = "!=" then [strLit "==", x, y]
      else [strLit "!", .arr xs]
  | _ => [strLit "!", .arr xs]

mutual

/-- The `#makeStyleFilter` compiler of `src/layers/filter.js`: a boolean
filter compiles to the corresponding boolean, an object node to the array
of elements pushed for its entries. -/
def makeStyleFilter : Filter → SExpr
  | .lit b => .lit (.bool b)
  | .obj es => .arr (compileEntries es)

/-- Elements pushed onto the style filter for a list of object entries. -/
def compileEntries : List FEntry → List SExpr
  | [] => []
  | e :: es => compileEntry e ++ compileEntries es

/-- Elements pushed onto the style filter for one object entry. -/
def compileEntry : FEntry → List SExpr
  | .andE fs =>
      if 2 ≤ fs.length then strLit "all" :: compileList fs else []
  | .orE fs =>
      if 2 ≤ fs.length then strLit "any" :: compileList fs else []
  | .hasE k => [strLit "has", strLit k]
  | .notE f =>
      match makeStyleFilter f with
      | .lit v => [SExpr.lit (.bool (! v.truthy))]
      | .arr xs => negArr xs
  | .kv k v => [strLit "==", strLit k, .lit v]
  | .kvList k vs =>
      strLit "any" :: vs.map (fun v => SExpr.arr [strLit "==", strLit k, .lit v])

/-- Compiles each operand of an `AND`/`OR` node. -/
def compileList : List Filter → List SExpr
  | [] => []
  | f :: fs => makeStyleFilter f :: compileList fs

end

/-! Renderer semantics of compiled style filters.  These definitions are
the second side of the refinement claim: they follow the stated renderer
filter semantics, not the viewer's own code. -/

/-- Modelled from the spec: equality comparison of a property's scalar
value with a literal, false when the key is absent or holds an array. -/
def propScalarEq (p : Props) (k : String) (v : JSValue) : Bool :=
  match getProp p k with
  | some (.scalar pv) => decide (pv = v)
  | _ => false

/-- Modelled from the spec: a `has` / `!has` operand list is a single key
name. -/
def keyOperand (rest : List SExpr) : Option String :=
  match rest with
  | [SExpr.lit (.str k)] => some k
  | _ => none

/-- Modelled from the spec: a `==` / `!=` operand list is a key name and a
comparison value. -/
def comparisonOperands (rest : List SExpr) : Option (String × JSValue) :=
  match rest with
  | [SExpr.lit (.str k), SExpr.lit v] => some (k, v)
  | _ => none

mutual

/-- Modelled from the spec: evaluation of a compiled style-filter
expression against a properties dictionary under the renderer's filter
semantics stated by the claim: `all` is conjunction, `any` disjunction,
`has` key presence, `==` / `!=` value comparison and its negation, `!`
negation; a bare boolean is itself and anything malformed does not
match. -/
def evalStyle (p : Props) : SExpr → Bool
  | .lit (.bool b) => b
  | .lit _ => false
  | .arr (SExpr.lit (.str s) :: rest) =>
      if s = "has" then
        match keyOperand rest with
        | some k => hasKey p k
        | none => false
      else if s = "!has" then
        match keyOperand rest with
        | some k => ! hasKey p k
        | none => false
      else if s = "==" then
        match comparisonOperands rest with
        | some (k, v) => propScalarEq p k v
        | none => false
      else if s = "!=" then
        match comparisonOperands rest with
        | some (k, v) => ! propScalarEq p k v
        | none => false
      else if s = "!" then evalNeg p rest
      else if s = "all" then evalConj p rest
      else if s = "any" then evalDisj p rest
      else false
  | .arr _ => false

/-- Modelled from the spec: a generic negation applies to exactly one
operand. -/
def evalNeg (p : Props) : List SExpr → Bool
  | [e] => ! evalStyle p e
  | _ => false

/-- Conjunction of the operands of an `all` expression. -/
def evalConj (p : Props) : List SExpr → Bool
  | [] => true
  | e :: es => evalStyle p e && evalConj p es

/-- Disjunction of the operands of an `any` expression. -/
def evalDisj (p : Props) : List SExpr → Bool
  | [] => false
  | e :: es => evalStyle p e || evalDisj p es

end

/-! Mutators of `PropertiesFilter`.  Each acts on the stored filter value;
`Object.assign` copies are identities under value semantics.  `invert` is
modelled in `Except` because its object branch evaluates an identifier
`filter` that has no binding in the source module. -/

/-- A JavaScript exception raised by the embedded code. -/
inductive JSException where
  | referenceError (name : String)
deriving DecidableEq, Repr

/-- The `clear()` mutator: resets the stored filter to `true` (the source
guard merely skips a redundant write when it is already `true`). -/
def clearFilter (_f : Filter) : Filter := .lit true

/-- The `narrow(filter)` mutator: conjoins the argument onto the stored
filter. -/
def narrow (st f : Filter) : Filter :=
  match st with
  | .lit true => f
  | .lit false => st
  | _ => .obj [.andE [st, f]]

/-- The `expand(filter)` mutator: disjoins the argument onto the stored
filter. -/
def expand (st f : Filter) : Filter :=
  match st with
  | .lit false => f
  | .lit true => st
  | _ => .obj [.orE [st, f]]

/-- The `invert()` mutator.  The boolean branches swap the literal; the
object branch of the source evaluates `Object.assign({}, filter)` where
`filter` is not a name in scope (the field is `this.#filter`), so it
throws a `ReferenceError` before any `NOT` node is built. -/
def invert (st : Filter) : Except JSException Filter :=
  match st with
  | .lit false => .ok (.lit true)
  | .lit true => .ok (.lit false)
  | .obj _ => .error (.referenceError "filter")

/-- The `setFilter(filter)` mutator: replaces the stored filter. -/
def setFilter (_st f : Filter) : Filter := f

/-! The facet registry of `LayerManager` (`src/layers/flightpaths.ts`).
Its `#filterMap` holds one `PropertiesFilter` per registered facet; we
model the map by the ordered list of the stored filter values. -/

/-- What `#updatedFilters` tells the styling layers: either clear any
visibility-filter override, or install the combined filter (pushed to the
flight-path layer as an in-memory predicate and to the map style layers
as its compiled style expression). -/
inductive FilterUpdate where
  | clearVisibility
  | setVisibility (combined : Filter) (style : SExpr)

/-- The combined filter built by `#updatedFilters` when at least one facet
filter is registered: `{AND: [...]}` over all stored filter values. -/
def combinedFilter (filters : List Filter) : Filter :=
  .obj [.andE filters]

/-- The `#updatedFilters` recomputation: with a non-empty facet map the
combined filter and its compiled form are pushed to every layer,
otherwise every layer's visibility filter is cleared. -/
def updatedFilters (filters : List Filter) : FilterUpdate :=
  if 0 < filters.length then
    .setVisibility (combinedFilter filters) (makeStyleFilter (combinedFilter filters))
  else
    .clearVisibility

/-! Annotation reverse indices and identifier resolution, from the
`FlatMap` class.  `utils.normaliseId` is not part of the repository
snapshot, so every definition takes the normalization as a parameter
`norm`; likewise the APiNATOMY path marker string is a parameter
`pathStart` (the spec's example value is `ilxtr:`). -/

/-- A property value that feeds a reverse index: a single identifier
string or an array of identifier strings. -/
inductive IdValue where
  | one (s : String)
  | many (ss : List String)
deriving DecidableEq, Repr

/-- The JS `.length` of an identifier property: string length for a
string, element count for an array (the source only tests it for
truthiness). -/
def IdValue.jsLength : IdValue → Nat
  | .one s => s.length
  | .many ss => ss.length

/-- One feature annotation record, restricted to the fields the indexing
code reads.  `models` is a single identifier string, as in the
`FlatMapFeatureAnnotation` type; a missing property is `none`. -/
structure FeatureAnn where
  featureId : Nat := 0
  models : Option String := none
  dataset : Option IdValue := none
  source : Option IdValue := none
  taxons : Option IdValue := none
  centreline : Bool := false
deriving DecidableEq, Repr

/-- A reverse index (`FeatureIdMap`): a JS `Map` from normalized external
identifier to the ordered list of feature ids, modelled as an
insertion-ordered association list. -/
def FeatureIdMap := List (String × List Nat)

/-- Map lookup. -/
def fimGet : FeatureIdMap → String → Option (List Nat)
  | [], _ => none
  | (k', v) :: rest, k => if k' = k then some v else fimGet rest k

/-- Map update: replaces the value of an existing key in place, otherwise
appends a new key in insertion order. -/
def fimSet : FeatureIdMap → String → List Nat → FeatureIdMap
  | [], k, v => [(k, v)]
  | (k', v') :: rest, k, v =>
      if k' = k then (k', v) :: rest else (k', v') :: fimSet rest k v

/-- The `#updateFeatureIdMapEntry` step: for a truthy feature id, appends
it to the list stored under the normalized identifier (JS number
truthiness makes feature id `0` fall through the guard). -/
def updateFeatureIdMapEntry (norm : String → String) (propertyId : String)
    (m : FeatureIdMap) (featureId : Nat) : FeatureIdMap :=
  if featureId ≠ 0 then
    let id := norm propertyId
    match fimGet m id with
    | some featureIds => fimSet m id (featureIds ++ [featureId])
    | none => fimSet m id [featureId]
  else m

/-- The map style under which centrelines stay indexed
(`FLATMAP_STYLE.CENTRELINE`). -/
def CENTRELINE_STYLE : String := "centreline"

/-- The fallback taxon identifier (`UNCLASSIFIED_TAXON_ID`). -/
def UNCLASSIFIED_TAXON_ID : String := "NCBITaxon:2787823"

/-- The JS `String.startsWith` test, on the underlying character lists. -/
def jsStartsWith (s pre : String) : Bool :=
  pre.data.isPrefixOf s.data

/-- The fallback branch of `#updateFeatureIdMap`, reached when the tracked
property is absent or empty: when a fallback identifier was supplied and
`models` starts with the APiNATOMY path marker, the feature id is filed
under the fallback identifier. -/
def updateFeatureIdMapMissing (pathStart : String) (norm : String → String)
    (m : FeatureIdMap) (ann : FeatureAnn) (missingId : Option String) : FeatureIdMap :=
  match missingId, ann.models with
  | some mid, some mstr =>
      if jsStartsWith mstr pathStart then updateFeatureIdMapEntry norm mid m ann.featureId
      else m
  | _, _ => m

/-- The `#updateFeatureIdMap` step for one tracked property.  Centreline
features are excluded outside the centreline style; a present, non-empty
property fans out to one entry per identifier; otherwise the fallback
branch runs. -/
def updateFeatureIdMap (style pathStart : String) (norm : String → String)
    (prop : Option IdValue) (m : FeatureIdMap) (ann : FeatureAnn)
    (missingId : Option String) : FeatureIdMap :=
  if style ≠ CENTRELINE_STYLE && ann.centreline then m
  else
    match prop with
    | some pv =>
        if pv.jsLength ≠ 0 then
          match pv with
          | .many ids =>
              ids.foldl (fun m' id => updateFeatureIdMapEntry norm id m' ann.featureId) m
          | .one pid => updateFeatureIdMapEntry norm pid m ann.featureId
        else
          updateFeatureIdMapMissing pathStart norm m ann missingId
    | none => updateFeatureIdMapMissing pathStart norm m ann missingId

/-- The reverse indices owned by the `FlatMap` class, restricted to the
fields of the resolution chain. -/
structure MapIndexes where
  idToAnn : List (Nat × FeatureAnn) := []
  datasetToFeatureIds : FeatureIdMap := []
  modelToFeatureIds : FeatureIdMap := []
  mapSourceToFeatureIds : FeatureIdMap := []
  taxonToFeatureIds : FeatureIdMap := []

/-- The `#saveAnnotation` step: stamps the feature id onto the record,
stores it, and updates the four reverse indices (the property-value
catalog and centreline geometry caching play no part in resolution and
are not modelled). -/
def saveAnn (style pathStart : String) (norm : String → String)
    (st : MapIndexes) (featureId : Nat) (ann0 : FeatureAnn) : MapIndexes :=
  let ann := { ann0 with featureId := featureId }
  { idToAnn := st.idToAnn ++ [(featureId, ann)]
    datasetToFeatureIds :=
      updateFeatureIdMap style pathStart norm ann.dataset st.datasetToFeatureIds ann none
    modelToFeatureIds :=
      updateFeatureIdMap style pathStart norm (ann.models.map .one) st.modelToFeatureIds ann none
    mapSourceToFeatureIds :=
      updateFeatureIdMap style pathStart norm ann.source st.mapSourceToFeatureIds ann none
    taxonToFeatureIds :=
      updateFeatureIdMap style pathStart norm ann.taxons st.taxonToFeatureIds ann
        (some UNCLASSIFIED_TAXON_ID) }

/-- Indexing a whole annotation dictionary, in iteration order. -/
def buildIndexes (style pathStart : String) (norm : String → String)
    (anns : List (Nat × FeatureAnn)) : MapIndexes :=
  anns.foldl (fun st fa => saveAnn style pathStart norm st fa.1 fa.2) {}

/-- The `modelFeatureIds` query: normalized lookup in the model index. -/
def modelFeatureIds (norm : String → String) (st : MapIndexes)
    (anatomicalId : String) : List Nat :=
  (fimGet st.modelToFeatureIds (norm anatomicalId)).getD []

/-- The `taxonFeatureIds` query: normalized lookup in the taxon index. -/
def taxonFeatureIds (norm : String → String) (st : MapIndexes)
    (taxonId : String) : List Nat :=
  (fimGet st.taxonToFeatureIds (norm taxonId)).getD []

/-- The argument of the resolution chain: a single external identifier or
a list of them. -/
inductive ExtIds where
  | one (s : String)
  | many (ss : List String)
deriving DecidableEq, Repr

/-- Stage (a) of `modelFeatureIdList`: normalized model-index lookups. -/
def modelStage (norm : String → String) (st : MapIndexes) : ExtIds → List Nat
  | .one s => modelFeatureIds norm st s
  | .many ss => ss.flatMap (modelFeatureIds norm st)

/-- Stage (b) of `modelFeatureIdList`: dataset then source lookups for
each requested identifier, used verbatim (no normalization). -/
def datasetSourceStage (st : MapIndexes) : ExtIds → List Nat
  | .one s =>
      (fimGet st.datasetToFeatureIds s).getD [] ++
        (fimGet st.mapSourceToFeatureIds s).getD []
  | .many ss =>
      ss.flatMap (fun id =>
        (fimGet st.datasetToFeatureIds id).getD [] ++
          (fimGet st.mapSourceToFeatureIds id).getD [])

/-- The individual identifiers of a resolution request. -/
def extIdsList : ExtIds → List String
  | .one s => [s]
  | .many ss => ss

/-- The `modelFeatureIdList` resolution chain.  `ui` models the optional
`#userInteractions` collaborator: its `pathFeatureIds` connectivity
resolver is not part of the snapshot, so it is an opaque parameter,
consulted once when both index stages come up empty. -/
def modelFeatureIdList (norm : String → String) (st : MapIndexes)
    (ui : Option (ExtIds → List Nat)) (ids : ExtIds) : List Nat :=
  let featureIds := modelStage norm st ids
  let featureIds :=
    if featureIds.length = 0 then featureIds ++ datasetSourceStage st ids
    else featureIds
  if featureIds.length = 0 then
    match ui with
    | some pathFeatureIds => featureIds ++ pathFeatureIds ids
    | none => featureIds
  else featureIds

/-! Predicates used to state the refinement between `match` and the
compiled style filters. -/

/-- Tests whether a compiled sub-expression is one the `NOT` branch of
`#makeStyleFilter` simplifies algebraically: a two-element `has`/`!has`
expression or a three-element `==`/`!=` comparison. -/
def simplifiable (xs : List SExpr) : Bool :=
  match xs with
  | [SExpr.lit (.str s), _] => s = "has" || s = "!has"
  | [SExpr.lit (.str s), _, _] => s = "==" || s = "!="
  | _ => false

/-- Tests whether the key tested by a key/value node is present in the
dictionary with a scalar value. -/
def scalarKey (p : Props) (k : String) : Bool :=
  match getProp p k with
  | some (.scalar _) => true
  | _ => false

mutual

/-- A filter is well formed for a dictionary `p` when every object node
has exactly one entry, every `AND`/`OR` node has at least two operands,
every `NOT` wraps an object node, and every key tested by a key/value
node is present in `p` with a scalar value.  On such filters the two
evaluation paths agree. -/
def goodFilter (p : Props) : Filter → Bool
  | .lit _ => true
  | .obj [e] => goodEntry p e
  | .obj _ => false

/-- Well-formedness of one object entry, see `goodFilter`. -/
def goodEntry (p : Props) : FEntry → Bool
  | .andE fs => decide (2 ≤ fs.length) && goodList p fs
  | .orE fs => decide (2 ≤ fs.length) && goodList p fs
  | .hasE _ => true
  | .notE (.obj es) => goodFilter p (.obj es)
  | .notE _ => false
  | .kv k _ => scalarKey p k
  | .kvList k _ => scalarKey p k

/-- Well-formedness of every operand of an `AND`/`OR` node. -/
def goodList (p : Props) : List Filter → Bool
  | [] => true
  | f :: fs => goodFilter p f && goodList p fs

end

/-- The shapes a well-formed entry can compile to: one of the four
algebraically simplifiable forms with a string key, or an expression the
`NOT` branch wraps generically. -/
def ShapeOK (xs : List SExpr) : Prop :=
  (∃ k, xs = [strLit "has", strLit k]) ∨
  (∃ k, xs = [strLit "!has", strLit k]) ∨
  (∃ k v, xs = [strLit "==", strLit k, SExpr.lit v]) ∨
  (∃ k v, xs = [strLit "!=", strLit k, SExpr.lit v]) ∨
  negArr xs = [strLit "!", SExpr.arr xs]

/-! Shared lemmas. -/

/-- Matching an object node splits over a split of its entry list. -/
theorem matchEntries_append (p : Props) (es1 es2 : List FEntry) :
    matchEntries p (es1 ++ es2) = (matchEntries p es1 && matchEntries p es2) := by
  induction es1 with
  | nil => simp [matchEntries]
  | cons e es ih => simp [matchEntries, ih, Bool.and_assoc]

/-- The AND-reduce over an operand list is the conjunction of the
operands' matches. -/
theorem matchAll_eq_all (p : Props) (fs : List Filter) :
    matchAll p fs = fs.all (matchFilter p) := by
  induction fs with
  | nil => rfl
  | cons f fs ih => simp [matchAll, ih]

/-- Lookup after an update: the updated key reads back the new value,
every other key is unchanged. -/
theorem fimGet_fimSet (m : FeatureIdMap) (k : String) (v : List Nat)
    (x : String) :
    fimGet (fimSet m k v) x = if k = x then some v else fimGet m x := by
  induction m with
  | nil => simp [fimSet, fimGet]
  | cons e rest ih =>
      obtain ⟨k', v'⟩ := e
      by_cases h : k' = k
      · subst h
        by_cases h2 : k' = x <;> simp [fimSet, fimGet, h2]
      · by_cases h2 : k' = x
        · subst h2
          simp [fimSet, h, fimGet, Ne.symm h]
        · simp [fimSet, h, fimGet, h2, ih]

/-- An entry update leaves every key other than the normalized inserted
identifier unchanged. -/
theorem fimGet_updateEntry_other (norm : String → String) (pid : String)
    (m : FeatureIdMap) (fid : Nat) (x : String) (h : norm pid ≠ x) :
    fimGet (updateFeatureIdMapEntry norm pid m fid) x = fimGet m x := by
  unfold updateFeatureIdMapEntry
  by_cases hf : fid ≠ 0
  · cases hg : fimGet m (norm pid) <;> simp [hf, hg, fimGet_fimSet, h]
  · simp [hf]

/-- An entry update appends the feature id to the list read back under the
normalized inserted identifier. -/
theorem fimGet_updateEntry_self (norm : String → String) (pid : String)
    (m : FeatureIdMap) (fid : Nat) (h : fid ≠ 0) :
    (fimGet (updateFeatureIdMapEntry norm pid m fid) (norm pid)).getD [] =
      (fimGet m (norm pid)).getD [] ++ [fid] := by
  unfold updateFeatureIdMapEntry
  cases hg : fimGet m (norm pid) <;> simp [h, hg, fimGet_fimSet]

/-- Keys present in a map stay fixed under the normalization after an
entry update, provided they did before and the normalization is
idempotent. -/
theorem normKeys_updateEntry (norm : String → String)
    (hid : ∀ s, norm (norm s) = norm s) (pid : String) (m : FeatureIdMap)
    (fid : Nat) (h : ∀ k, fimGet m k ≠ none → norm k = k) :
    ∀ k, fimGet (updateFeatureIdMapEntry norm pid m fid) k ≠ none →
      norm k = k := by
  intro k hk
  by_cases he : norm pid = k
  · subst he
    exact hid pid
  · rw [fimGet_updateEntry_other norm pid m fid k he] at hk
    exact h k hk

/-- The normalized-keys property is preserved over a fan-out of entry
updates. -/
theorem normKeys_foldEntries (norm : String → String)
    (hid : ∀ s, norm (norm s) = norm s) (fid : Nat) :
    ∀ (ids : List String) (m : FeatureIdMap),
      (∀ k, fimGet m k ≠ none → norm k = k) →
      ∀ k, fimGet (ids.foldl
          (fun m' id => updateFeatureIdMapEntry norm id m' fid) m) k ≠ none →
        norm k = k := by
  intro ids
  induction ids with
  | nil => exact fun m h => h
  | cons i is ih =>
      exact fun m h => ih _ (normKeys_updateEntry norm hid i m fid h)

/-- The normalized-keys property is preserved by the fallback branch. -/
theorem normKeys_updateMissing (pathStart : String) (norm : String → String)
    (hid : ∀ s, norm (norm s) = norm s) (m : FeatureIdMap)
    (ann : FeatureAnn) (missingId : Option String)
    (h : ∀ k, fimGet m k ≠ none → norm k = k) :
    ∀ k, fimGet (updateFeatureIdMapMissing pathStart norm m ann missingId) k ≠ none →
      norm k = k := by
  intro k hk
  unfold updateFeatureIdMapMissing at hk
  rcases missingId with _ | mid
  · exact h k hk
  · rcases hm : ann.models with _ | mstr
    · simp only [hm] at hk
      exact h k hk
    · simp only [hm] at hk
      by_cases hs : jsStartsWith mstr pathStart = true
      · rw [if_pos hs] at hk
        exact normKeys_updateEntry norm hid mid m ann.featureId h k hk
      · rw [if_neg hs] at hk
        exact h k hk

/-- The normalized-keys property is preserved by a whole
`#updateFeatureIdMap` step. -/
theorem normKeys_updateMap (style pathStart : String) (norm : String → String)
    (hid : ∀ s, norm (norm s) = norm s) (prop : Option IdValue)
    (m : FeatureIdMap) (ann : FeatureAnn) (missingId : Option String)
    (h : ∀ k, fimGet m k ≠ none → norm k = k) :
    ∀ k, fimGet (updateFeatureIdMap style pathStart norm prop m ann missingId) k ≠ none →
      norm k = k := by
  intro k hk
  unfold updateFeatureIdMap at hk
  by_cases hex : (decide (style ≠ CENTRELINE_STYLE) && ann.centreline) = true
  · rw [if_pos hex] at hk
    exact h k hk
  · rw [if_neg hex] at hk
    cases prop with
    | none => exact normKeys_updateMissing pathStart norm hid m ann missingId h k hk
    | some pv =>
        dsimp only at hk
        by_cases hl : pv.jsLength ≠ 0
        · rw [if_pos hl] at hk
          cases pv with
          | one pid =>
              exact normKeys_updateEntry norm hid pid m ann.featureId h k hk
          | many ids =>
              exact normKeys_foldEntries norm hid ann.featureId ids m h k hk
        · rw [if_neg hl] at hk
          exact normKeys_updateMissing pathStart norm hid m ann missingId h k hk

/-- Every key of the dataset and source indices built by indexing an
annotation dictionary is fixed under an idempotent normalization. -/
theorem normKeys_buildIndexes (style pathStart : String)
    (norm : String → String) (hid : ∀ s, norm (norm s) = norm s)
    (anns : List (Nat × FeatureAnn)) :
    (∀ k, fimGet (buildIndexes style pathStart norm anns).datasetToFeatureIds k ≠ none →
      norm k = k) ∧
    (∀ k, fimGet (buildIndexes style pathStart norm anns).mapSourceToFeatureIds k ≠ none →
      norm k = k) := by
  suffices hgen : ∀ st : MapIndexes,
      (∀ k, fimGet st.datasetToFeatureIds k ≠ none → norm k = k) →
      (∀ k, fimGet st.mapSourceToFeatureIds k ≠ none → norm k = k) →
      (∀ k, fimGet (anns.foldl
          (fun s fa => saveAnn style pathStart norm s fa.1 fa.2) st).datasetToFeatureIds k ≠ none →
        norm k = k) ∧
      (∀ k, fimGet (anns.foldl
          (fun s fa => saveAnn style pathStart norm s fa.1 fa.2) st).mapSourceToFeatureIds k ≠ none →
        norm k = k) by
    exact hgen {} (fun k hk => absurd rfl hk) (fun k hk => absurd rfl hk)
  induction anns with
  | nil => exact fun st h1 h2 => ⟨h1, h2⟩
  | cons fa anns ih =>
      intro st h1 h2
      exact ih (saveAnn style pathStart norm st fa.1 fa.2)
        (normKeys_updateMap style pathStart norm hid _ _ _ _ h1)
        (normKeys_updateMap style pathStart norm hid _ _ _ _ h2)

/-- A compiled sub-expression the source does not simplify algebraically
is wrapped in the generic negation. -/
theorem negArr_generic (xs : List SExpr) (h : simplifiable xs = false) :
    negArr xs = [strLit "!", SExpr.arr xs] := by
  match xs with
  | [] => rfl
  | [SExpr.arr a] => rfl
  | [SExpr.lit v] =>
      cases v <;> rfl
  | [SExpr.lit (JSValue.str s), x] =>
      simp [simplifiable] at h
      simp [negArr, h.1, h.2]
  | [SExpr.lit (JSValue.num n), x] => rfl
  | [SExpr.lit (JSValue.bool b), x] => rfl
  | [SExpr.arr a, x] => rfl
  | [SExpr.lit (JSValue.str s), x, y] =>
      simp [simplifiable] at h
      simp [negArr, h.1, h.2]
  | [SExpr.lit (JSValue.num n), x, y] => rfl
  | [SExpr.lit (JSValue.bool b), x, y] => rfl
  | [SExpr.arr a, x, y] => rfl
  | x0 :: x1 :: x2 :: x3 :: rest =>
      cases x0 with
      | arr a => rfl
      | lit v => cases v <;> rfl

/-! Claim C4. -/

/-- C4: the claim says every mutator, `invert` included, completes without
throwing on any well-formed filter state.  On a filter-tree state the
source's `invert` evaluates the identifier `filter`, which has no binding
in the module (the stored field is `this.#filter`), so it throws a
`ReferenceError` instead of storing the negation: evaluated here on the
tree `{HAS: 'prop'}`. -/
theorem C4_invert_reference_error :
    invert (.obj [.hasE "prop"]) = .error (.referenceError "filter") := rfl

/-! Claim C7. -/

/-- C7: a key/value filter node whose key is absent from the properties
dictionary does not disqualify the match: for any expression value,
scalar or list, the filter `{k: v}` matches. -/
theorem C7_absent_key_matches (p : Props) (k : String)
    (h : hasKey p k = false) :
    (∀ v : JSValue, matchFilter p (.obj [.kv k v]) = true) ∧
    (∀ vs : List JSValue, matchFilter p (.obj [.kvList k vs]) = true) := by
  have hnone : getProp p k = none := by
    unfold hasKey at h
    cases hg : getProp p k with
    | none => rfl
    | some v => rw [hg] at h; simp at h
  refine ⟨fun v => ?_, fun vs => ?_⟩ <;>
    simp [matchFilter, matchEntries, matchEntry, hnone]

/-- Witness for C7 at a concrete input: the empty dictionary lacks the key
`prop`, and both node forms match it. -/
theorem C7_absent_key_matches_witness :
    matchFilter [] (.obj [.kv "prop" (.num 1)]) = true ∧
    matchFilter [] (.obj [.kvList "prop" [.num 1, .num 2]]) = true :=
  ⟨(C7_absent_key_matches [] "prop" (by decide)).1 (.num 1),
   (C7_absent_key_matches [] "prop" (by decide)).2 [.num 1, .num 2]⟩

/-! Claim C8. -/

/-- C8: an `AND` / `OR` node whose operand list has fewer than two
elements is treated as vacuously true (the evaluator is total, so nothing
is thrown), and such a node never causes a feature to be rejected:
removing it from its object node leaves the match result unchanged. -/
theorem C8_degenerate_and_or (p : Props) (fs : List Filter)
    (es1 es2 : List FEntry) (h : fs.length < 2) :
    matchEntry p (.andE fs) = true ∧ matchEntry p (.orE fs) = true ∧
    matchFilter p (.obj (es1 ++ FEntry.andE fs :: es2)) =
      matchFilter p (.obj (es1 ++ es2)) ∧
    matchFilter p (.obj (es1 ++ FEntry.orE fs :: es2)) =
      matchFilter p (.obj (es1 ++ es2)) := by
  have h2 : ¬ (2 ≤ fs.length) := by omega
  have hand : matchEntry p (.andE fs) = true := by simp [matchEntry, h2]
  have hor : matchEntry p (.orE fs) = true := by simp [matchEntry, h2]
  refine ⟨hand, hor, ?_, ?_⟩ <;>
    simp [matchFilter, matchEntries_append, matchEntries, hand, hor]

/-- Witness for C8 at a concrete input: a one-operand `AND` over an
always-false filter is skipped, and inserting it into an object node
changes nothing. -/
theorem C8_degenerate_and_or_witness :
    matchEntry [] (.andE [.lit false]) = true ∧
    matchFilter [] (.obj [FEntry.andE [.lit false], .hasE "x"]) =
      matchFilter [] (.obj [FEntry.hasE "x"]) := by
  have h := C8_degenerate_and_or [] [.lit false] [] [.hasE "x"] (by decide)
  exact ⟨h.1, h.2.2.1⟩

/-! Claim C9. -/

/-- C9 counterexample: the claim says every negated sub-expression other
than the four simplifiable forms compiles to the generic wrapper
`['!', subexpression]`, but a negated boolean sub-filter compiles to a
bare complemented boolean pushed directly: `{NOT: true}` compiles to
`[false]`, not to `['!', true]`. -/
theorem C9_not_boolean_counterexample :
    makeStyleFilter (.obj [.notE (.lit true)]) = .arr [.lit (.bool false)] ∧
    makeStyleFilter (.obj [.notE (.lit true)]) ≠
      .arr [strLit "!", .lit (.bool true)] := by
  refine ⟨rfl, ?_⟩
  intro h
  simp [makeStyleFilter, compileEntries, compileEntry, JSValue.truthy, strLit] at h

/-- C9 amended: compiling `NOT` applies the four algebraic
simplifications (`NOT(HAS k)` to `!has`, `NOT({k: v})` to `!=`, and the
two reverse pairs), any other negated sub-expression whose own
compilation is an array gets the generic wrapper `['!', subexpression]`,
and a negated boolean sub-filter compiles to the complemented boolean
pushed directly. -/
theorem C9_not_compilation (k : String) (v : JSValue) :
    makeStyleFilter (.obj [.notE (.obj [.hasE k])]) =
      .arr [strLit "!has", strLit k] ∧
    makeStyleFilter (.obj [.notE (.obj [.kv k v])]) =
      .arr [strLit "!=", strLit k, .lit v] ∧
    makeStyleFilter (.obj [.notE (.obj [.notE (.obj [.hasE k])])]) =
      .arr [strLit "has", strLit k] ∧
    makeStyleFilter (.obj [.notE (.obj [.notE (.obj [.kv k v])])]) =
      .arr [strLit "==", strLit k, .lit v] ∧
    (∀ (f : Filter) (xs : List SExpr), makeStyleFilter f = .arr xs →
      simplifiable xs = false →
      makeStyleFilter (.obj [.notE f]) = .arr [strLit "!", .arr xs]) ∧
    (∀ b : Bool, makeStyleFilter (.obj [.notE (.lit b)]) =
      .arr [SExpr.lit (.bool (!b))]) := by
  refine ⟨rfl, rfl, rfl, rfl, fun f xs hf hs => ?_, fun b => ?_⟩
  · show SExpr.arr (compileEntry (.notE f) ++ []) = _
    rw [List.append_nil]
    show SExpr.arr (match makeStyleFilter f with
      | .lit v => [SExpr.lit (.bool (! v.truthy))]
      | .arr xs => negArr xs) = _
    rw [hf]
    show SExpr.arr (negArr xs) = _
    rw [negArr_generic xs hs]
  · cases b <;> rfl

/-- Witness for C9 at concrete inputs, exercising the generic-wrapper
part on a compiled two-operand `AND`. -/
theorem C9_not_compilation_witness :
    makeStyleFilter (.obj [.notE (.obj [.hasE "prop"])]) =
      .arr [strLit "!has", strLit "prop"] ∧
    makeStyleFilter
        (.obj [.notE (.obj [.andE [.obj [.kv "a" (.num 1)],
          .obj [.kv "b" (.num 2)]]])]) =
      .arr [strLit "!",
        .arr [strLit "all", .arr [strLit "==", strLit "a", .lit (.num 1)],
          .arr [strLit "==", strLit "b", .lit (.num 2)]]] := by
  refine ⟨(C9_not_compilation "prop" (.num 0)).1, ?_⟩
  exact (C9_not_compilation "prop" (.num 0)).2.2.2.2.1
    (.obj [.andE [.obj [.kv "a" (.num 1)], .obj [.kv "b" (.num 2)]]])
    [strLit "all", .arr [strLit "==", strLit "a", .lit (.num 1)],
      .arr [strLit "==", strLit "b", .lit (.num 2)]]
    rfl (by decide)

/-! Claim C2. -/

/-- C2 counterexample: with exactly one registered facet the claim says
the combined filter's match equals that facet's match, but the combined
filter is a one-operand `AND`, which the evaluator treats as degenerate
and vacuously true: for the facet filter `{kind: 'one'}` and a dictionary
with `kind: 'two'`, the facet rejects while the combined filter
matches. -/
theorem C2_single_facet_counterexample :
    updatedFilters [Filter.obj [.kv "kind" (.str "one")]] =
      .setVisibility (combinedFilter [Filter.obj [.kv "kind" (.str "one")]])
        (makeStyleFilter (combinedFilter [Filter.obj [.kv "kind" (.str "one")]])) ∧
    matchFilter [("kind", PValue.scalar (.str "two"))]
      (Filter.obj [.kv "kind" (.str "one")]) = false ∧
    matchFilter [("kind", PValue.scalar (.str "two"))]
      (combinedFilter [Filter.obj [.kv "kind" (.str "one")]]) = true :=
  ⟨rfl, rfl, rfl⟩

/-- C2 amended: with zero registered facets the styling layers are told
to clear their filter override; otherwise the combined filter is
`{AND: [...]}` over the registered facets' filters and is pushed with its
compiled form.  With at least two facets its match is the conjunction of
the individual matches, but a single facet yields a degenerate
one-operand `AND` that matches everything.  Two facets restricting
`kind` to different values jointly reject every dictionary whose `kind`
value is a scalar (dictionaries without the key, or with a list value
containing both, still match under the permissive key semantics). -/
theorem C2_combined_filter (fs : List Filter) (p : Props) :
    (updatedFilters [] = .clearVisibility) ∧
    (0 < fs.length → updatedFilters fs =
      .setVisibility (combinedFilter fs) (makeStyleFilter (combinedFilter fs))) ∧
    (2 ≤ fs.length → matchFilter p (combinedFilter fs) = fs.all (matchFilter p)) ∧
    (fs.length = 1 → matchFilter p (combinedFilter fs) = true) ∧
    (∀ v1 v2 : JSValue, v1 ≠ v2 → ∀ pv, getProp p "kind" = some (.scalar pv) →
      matchFilter p (combinedFilter
        [Filter.obj [.kv "kind" v1], Filter.obj [.kv "kind" v2]]) = false) := by
  refine ⟨rfl, fun h => ?_, fun h => ?_, fun h => ?_, fun v1 v2 hne pv hpv => ?_⟩
  · simp [updatedFilters, h]
  · simp [combinedFilter, matchFilter, matchEntries, matchEntry, h, matchAll_eq_all]
  · match fs, h with
    | [f], _ =>
        simp [combinedFilter, matchFilter, matchEntries, matchEntry]
  · simp [combinedFilter, matchFilter, matchEntries, matchEntry, matchAll, hpv]
    rintro rfl rfl
    exact hne rfl

/-- Witness for C2 at concrete inputs: two facets restricting `kind` to
`one` and `two` reject a dictionary with scalar `kind: 'one'` (which
satisfies only the first facet), and the two-facet conjunction law holds
there. -/
theorem C2_combined_filter_witness :
    matchFilter [("kind", PValue.scalar (.str "one"))]
      (combinedFilter [Filter.obj [.kv "kind" (.str "one")],
        Filter.obj [.kv "kind" (.str "two")]]) = false ∧
    matchFilter [("kind", PValue.scalar (.str "one"))]
      (combinedFilter [Filter.obj [.kv "kind" (.str "one")],
        Filter.obj [.kv "kind" (.str "two")]]) =
      ([Filter.obj [.kv "kind" (.str "one")],
        Filter.obj [.kv "kind" (.str "two")]].all
          (matchFilter [("kind", PValue.scalar (.str "one"))])) := by
  have h := C2_combined_filter
    [Filter.obj [.kv "kind" (.str "one")], Filter.obj [.kv "kind" (.str "two")]]
    [("kind", PValue.scalar (.str "one"))]
  exact ⟨h.2.2.2.2 (.str "one") (.str "two") (by decide) (.str "one") rfl,
    h.2.2.1 (by decide)⟩

/-! Claim C3. -/

/-- C3: the resolution chain proceeds in order: normalized model-index
lookups first; only if they produce nothing, dataset- and source-index
lookups for the same identifiers; only if the result is still empty, a
single delegation to the connectivity resolver.  Identifiers unknown to a
stage contribute nothing to it, the evaluator is total, and when every
stage, the external resolver included, knows none of the identifiers the
overall result is the empty list. -/
theorem C3_resolution_chain (norm : String → String) (st : MapIndexes)
    (ui : Option (ExtIds → List Nat)) (ids : ExtIds) :
    ((∀ s ∈ extIdsList ids, fimGet st.modelToFeatureIds (norm s) = none) →
      modelStage norm st ids = []) ∧
    ((∀ s ∈ extIdsList ids, fimGet st.datasetToFeatureIds s = none ∧
        fimGet st.mapSourceToFeatureIds s = none) →
      datasetSourceStage st ids = []) ∧
    (modelStage norm st ids ≠ [] →
      modelFeatureIdList norm st ui ids = modelStage norm st ids) ∧
    (modelStage norm st ids = [] → datasetSourceStage st ids ≠ [] →
      modelFeatureIdList norm st ui ids = datasetSourceStage st ids) ∧
    (modelStage norm st ids = [] → datasetSourceStage st ids = [] →
      modelFeatureIdList norm st ui ids =
        (match ui with | some r => r ids | none => [])) ∧
    (modelStage norm st ids = [] → datasetSourceStage st ids = [] →
      (∀ r, ui = some r → r ids = []) →
      modelFeatureIdList norm st ui ids = []) := by
  refine ⟨?_, ?_, ?_, ?_, ?_, ?_⟩
  · intro h
    cases ids with
    | one s => simp [modelStage, modelFeatureIds, h s (by simp [extIdsList])]
    | many ss =>
        simp only [modelStage, List.flatMap_eq_nil_iff]
        intro s hs
        simp [modelFeatureIds, h s (by simpa [extIdsList] using hs)]
  · intro h
    cases ids with
    | one s =>
        have := h s (by simp [extIdsList])
        simp [datasetSourceStage, this.1, this.2]
    | many ss =>
        simp only [datasetSourceStage, List.flatMap_eq_nil_iff]
        intro s hs
        have := h s (by simpa [extIdsList] using hs)
        simp [this.1, this.2]
  · intro h
    have hl : ¬ (modelStage norm st ids).length = 0 := by
      simpa [List.length_eq_zero] using h
    simp [modelFeatureIdList, hl]
  · intro h1 h2
    have hl : ¬ (datasetSourceStage st ids).length = 0 := by
      simpa [List.length_eq_zero] using h2
    simp [modelFeatureIdList, h1, hl]
  · intro h1 h2
    cases ui with
    | none => simp [modelFeatureIdList, h1, h2]
    | some r => simp [modelFeatureIdList, h1, h2]
  · intro h1 h2 hr
    cases ui with
    | none => simp [modelFeatureIdList, h1, h2]
    | some r => simp [modelFeatureIdList, h1, h2, hr r rfl]

/-- Witness for C3 at concrete inputs: with a model index holding
`uberon:1`, the request `UBERON:1` resolves through the model stage under
a case-folding normalization, and a request entirely unknown to every
stage and to the resolver yields the empty list. -/
theorem C3_resolution_chain_witness :
    modelFeatureIdList (fun s => if s = "UBERON:1" then "uberon:1" else s)
      { modelToFeatureIds := [("uberon:1", [7])] } (some (fun _ => []))
      (.one "UBERON:1") = [7] ∧
    modelFeatureIdList (fun s => if s = "UBERON:1" then "uberon:1" else s)
      { modelToFeatureIds := [("uberon:1", [7])] } (some (fun _ => []))
      (.many ["FMA:9", "ILX:2"]) = [] := by
  constructor
  · have h := C3_resolution_chain (fun s => if s = "UBERON:1" then "uberon:1" else s)
      { modelToFeatureIds := [("uberon:1", [7])] } (some (fun _ => []))
      (.one "UBERON:1")
    rw [h.2.2.1 (by decide)]
    decide
  · have h := C3_resolution_chain (fun s => if s = "UBERON:1" then "uberon:1" else s)
      { modelToFeatureIds := [("uberon:1", [7])] } (some (fun _ => []))
      (.many ["FMA:9", "ILX:2"])
    exact h.2.2.2.2.2 (by decide) (by decide) (fun r hr => by cases hr; rfl)

/-! Claim C10. -/

/-- C10: the dataset/source fallback of the resolution chain looks the
requested identifiers up verbatim, although those indices are keyed by
normalized identifiers; so, for any idempotent normalization and any
identifier whose normalized form differs from the form given by the
caller, the fallback stage contributes no features, whatever the indexed
annotations contain. -/
theorem C10_fallback_skips_normalization (style pathStart : String)
    (norm : String → String) (anns : List (Nat × FeatureAnn)) (x : String)
    (hid : ∀ s, norm (norm s) = norm s) (hx : norm x ≠ x) :
    fimGet (buildIndexes style pathStart norm anns).datasetToFeatureIds x = none ∧
    fimGet (buildIndexes style pathStart norm anns).mapSourceToFeatureIds x = none ∧
    datasetSourceStage (buildIndexes style pathStart norm anns) (.one x) = [] := by
  obtain ⟨hd, hs⟩ := normKeys_buildIndexes style pathStart norm hid anns
  have hd' : fimGet (buildIndexes style pathStart norm anns).datasetToFeatureIds x = none := by
    by_contra hne
    exact hx (hd x hne)
  have hs' : fimGet (buildIndexes style pathStart norm anns).mapSourceToFeatureIds x = none := by
    by_contra hne
    exact hx (hs x hne)
  exact ⟨hd', hs', by simp [datasetSourceStage, hd', hs']⟩

/-- Witness for C10 at a concrete input: indexing an annotation with
dataset `SCKAN` files it under the case-folded key `sckan`, the verbatim
fallback lookup of `SCKAN` finds nothing, yet a normalized lookup of the
same index would. -/
theorem C10_fallback_skips_normalization_witness :
    fimGet (buildIndexes "anatomical" "ilxtr:"
        (fun s => if s = "SCKAN" then "sckan" else s)
        [(3, { dataset := some (.one "SCKAN") })]).datasetToFeatureIds
      "SCKAN" = none ∧
    fimGet (buildIndexes "anatomical" "ilxtr:"
        (fun s => if s = "SCKAN" then "sckan" else s)
        [(3, { dataset := some (.one "SCKAN") })]).datasetToFeatureIds
      "sckan" = some [3] ∧
    datasetSourceStage (buildIndexes "anatomical" "ilxtr:"
        (fun s => if s = "SCKAN" then "sckan" else s)
        [(3, { dataset := some (.one "SCKAN") })]) (.one "SCKAN") = [] := by
  have h := C10_fallback_skips_normalization "anatomical" "ilxtr:"
    (fun s => if s = "SCKAN" then "sckan" else s)
    [(3, { dataset := some (.one "SCKAN") })] "SCKAN"
    (fun s => by by_cases hs : s = "SCKAN" <;> simp [hs]) (by decide)
  exact ⟨h.1, by decide, h.2.2⟩

/-! Claim C5. -/

/-- A string other than the empty string has nonzero JS length. -/
theorem string_length_ne_zero (X : String) (hX : X ≠ "") : X.length ≠ 0 := by
  intro h0
  apply hX
  cases X with
  | mk data =>
      cases data with
      | nil => rfl
      | cons a l => simp [String.length] at h0

/-- The model-index change of one `#saveAnnotation` step, observed at the
normalized key of a model id `X`: an included annotation carrying exactly
`X` appends its feature id, any other annotation leaves the key
unchanged. -/
theorem modelIndex_step (style pathStart : String) (norm : String → String)
    (X : String) (hX : X ≠ "") (m : FeatureIdMap) (ann : FeatureAnn)
    (hfid : ann.featureId ≠ 0)
    (hincl : style = CENTRELINE_STYLE ∨ ann.centreline = false)
    (hcoll : ∀ s, ann.models = some s → norm s = norm X → s = X) :
    (fimGet (updateFeatureIdMap style pathStart norm
        (ann.models.map IdValue.one) m ann none) (norm X)).getD [] =
      (fimGet m (norm X)).getD [] ++
        (if ann.models = some X then [ann.featureId] else []) := by
  have hex : ¬ ((decide (style ≠ CENTRELINE_STYLE) && ann.centreline) = true) := by
    rcases hincl with h | h <;> simp [h]
  unfold updateFeatureIdMap
  rw [if_neg hex]
  rcases hm : ann.models with _ | s
  · simp only [hm, Option.map_none']
    unfold updateFeatureIdMapMissing
    simp [hm]
  · simp only [hm, Option.map_some']
    by_cases hsX : s = X
    · subst hsX
      have hlen : (IdValue.one s).jsLength ≠ 0 := string_length_ne_zero s hX
      rw [if_pos hlen]
      rw [fimGet_updateEntry_self norm s m ann.featureId hfid]
      simp
    · have hns : norm s ≠ norm X := fun h => hsX (hcoll s hm h)
      by_cases hlen : (IdValue.one s).jsLength ≠ 0
      · rw [if_pos hlen]
        rw [fimGet_updateEntry_other norm s m ann.featureId (norm X) hns]
        simp [hsX]
      · rw [if_neg hlen]
        unfold updateFeatureIdMapMissing
        simp [hm, hsX]

/-- Folding `#saveAnnotation` over an annotation dictionary appends, under
the normalized key of `X`, exactly the feature ids of the included
annotations that carry `X`, in indexing order. -/
theorem modelIndex_fold (style pathStart : String) (norm : String → String)
    (X : String) (hX : X ≠ "") :
    ∀ (anns : List (Nat × FeatureAnn)) (st : MapIndexes),
      (∀ fa ∈ anns, style = CENTRELINE_STYLE ∨ fa.2.centreline = false) →
      (∀ fa ∈ anns, fa.1 ≠ 0) →
      (∀ fa ∈ anns, ∀ s, fa.2.models = some s → norm s = norm X → s = X) →
      (fimGet ((anns.foldl
          (fun s fa => saveAnn style pathStart norm s fa.1 fa.2) st)).modelToFeatureIds
        (norm X)).getD [] =
        (fimGet st.modelToFeatureIds (norm X)).getD [] ++
          (anns.filter (fun fa => fa.2.models = some X)).map (fun fa => fa.1) := by
  intro anns
  induction anns with
  | nil => intro st _ _ _; simp
  | cons fa anns ih =>
      intro st hincl hfid hcoll
      obtain ⟨g, a⟩ := fa
      have hstep := modelIndex_step style pathStart norm X hX
        st.modelToFeatureIds { a with featureId := g }
        (by simpa using hfid (g, a) (List.mem_cons_self _ _))
        (by simpa using hincl (g, a) (List.mem_cons_self _ _))
        (by simpa using hcoll (g, a) (List.mem_cons_self _ _))
      have hrest := ih (saveAnn style pathStart norm st g a)
        (fun fb hb => hincl fb (List.mem_cons_of_mem _ hb))
        (fun fb hb => hfid fb (List.mem_cons_of_mem _ hb))
        (fun fb hb => hcoll fb (List.mem_cons_of_mem _ hb))
      simp only [List.foldl_cons] at *
      rw [hrest]
      have hproj : (saveAnn style pathStart norm st g a).modelToFeatureIds =
          updateFeatureIdMap style pathStart norm
            (({ a with featureId := g } : FeatureAnn).models.map IdValue.one)
            st.modelToFeatureIds { a with featureId := g } none := rfl
      rw [hproj, hstep]
      by_cases hm : a.models = some X
      · simp [hm, List.filter_cons]
      · simp [hm, List.filter_cons]

/-- C5 amended: indexing a sequence of annotations, each included in the
index (a nonzero feature id and not centreline-excluded), of which
exactly those carrying model id `X` normalize onto the key of `X`,
makes `modelFeatureIds X` return exactly those annotations' feature ids,
in indexing order, with none lost. -/
theorem C5_model_resolution (style pathStart : String) (norm : String → String)
    (anns : List (Nat × FeatureAnn)) (X : String) (hX : X ≠ "")
    (hincl : ∀ fa ∈ anns, style = CENTRELINE_STYLE ∨ fa.2.centreline = false)
    (hfid : ∀ fa ∈ anns, fa.1 ≠ 0)
    (hcoll : ∀ fa ∈ anns, ∀ s, fa.2.models = some s → norm s = norm X → s = X) :
    modelFeatureIds norm (buildIndexes style pathStart norm anns) X =
      (anns.filter (fun fa => fa.2.models = some X)).map (fun fa => fa.1) := by
  have h := modelIndex_fold style pathStart norm X hX anns {} hincl hfid hcoll
  simpa [modelFeatureIds, buildIndexes, fimGet] using h

/-- C5 counterexample: the claim quantifies over all annotations, but a
centreline annotation indexed outside the centreline map style is
excluded from the model index: one annotation carries `UBERON:1`, yet
resolving `UBERON:1` returns the empty list rather than that feature
id. -/
theorem C5_centreline_excluded_counterexample :
    modelFeatureIds (fun s => if s = "UBERON:1" then "uberon:1" else s)
      (buildIndexes "anatomical" "ilxtr:"
        (fun s => if s = "UBERON:1" then "uberon:1" else s)
        [(1, { models := some "UBERON:1", centreline := true })]) "UBERON:1" = [] ∧
    ([(1, ({ models := some "UBERON:1", centreline := true } : FeatureAnn))].filter
        (fun fa => fa.2.models = some "UBERON:1")).map (fun fa => fa.1) = [1] := by
  constructor <;> decide

/-- Witness for C5 at concrete inputs: three annotations, the first and
third carrying `UBERON:1` under case-folding normalization, resolve to
exactly those two feature ids in indexing order. -/
theorem C5_model_resolution_witness :
    modelFeatureIds (fun s => if s = "UBERON:1" then "uberon:1" else s)
      (buildIndexes "anatomical" "ilxtr:"
        (fun s => if s = "UBERON:1" then "uberon:1" else s)
        [(1, { models := some "UBERON:1" }),
         (2, { models := some "FMA:7" }),
         (3, { models := some "UBERON:1" })]) "UBERON:1" = [1, 3] := by
  have h := C5_model_resolution "anatomical" "ilxtr:"
    (fun s => if s = "UBERON:1" then "uberon:1" else s)
    [(1, { models := some "UBERON:1" }),
     (2, { models := some "FMA:7" }),
     (3, { models := some "UBERON:1" })] "UBERON:1"
    (by decide)
    (by
      intro fa hfa
      simp only [List.mem_cons, List.not_mem_nil, or_false] at hfa
      rcases hfa with rfl | rfl | rfl <;> (right; rfl))
    (by
      intro fa hfa
      simp only [List.mem_cons, List.not_mem_nil, or_false] at hfa
      rcases hfa with rfl | rfl | rfl <;> decide)
    (by
      intro fa hfa s hs hn
      simp only [List.mem_cons, List.not_mem_nil, or_false] at hfa
      rcases hfa with rfl | rfl | rfl <;>
        (simp only [Option.some.injEq] at hs; subst hs; first | rfl | exact absurd hn (by decide)))
  rw [h]
  decide

/-! Claim C6. -/

/-- Membership in the list read back under any key survives an entry
update. -/
theorem mem_updateEntry (norm : String → String) (pid : String)
    (m : FeatureIdMap) (fid : Nat) (f : Nat) (k : String)
    (h : f ∈ (fimGet m k).getD []) :
    f ∈ (fimGet (updateFeatureIdMapEntry norm pid m fid) k).getD [] := by
  by_cases he : norm pid = k
  · subst he
    by_cases hf : fid ≠ 0
    · rw [fimGet_updateEntry_self norm pid m fid hf]
      exact List.mem_append_left _ h
    · unfold updateFeatureIdMapEntry
      rw [if_neg hf]
      exact h
  · rw [fimGet_updateEntry_other norm pid m fid k he]
    exact h

/-- Membership survives a fan-out of entry updates. -/
theorem mem_foldEntries (norm : String → String) (fid : Nat) (f : Nat)
    (k : String) :
    ∀ (ids : List String) (m : FeatureIdMap),
      f ∈ (fimGet m k).getD [] →
      f ∈ (fimGet (ids.foldl
          (fun m' id => updateFeatureIdMapEntry norm id m' fid) m) k).getD [] := by
  intro ids
  induction ids with
  | nil => exact fun m h => h
  | cons i is ih => exact fun m h => ih _ (mem_updateEntry norm i m fid f k h)

/-- Membership survives the fallback branch. -/
theorem mem_updateMissing (pathStart : String) (norm : String → String)
    (m : FeatureIdMap) (ann : FeatureAnn) (missingId : Option String)
    (f : Nat) (k : String) (h : f ∈ (fimGet m k).getD []) :
    f ∈ (fimGet (updateFeatureIdMapMissing pathStart norm m ann missingId) k).getD [] := by
  unfold updateFeatureIdMapMissing
  rcases missingId with _ | mid
  · exact h
  · rcases hm : ann.models with _ | mstr
    · simp only [hm]
      exact h
    · simp only [hm]
      by_cases hs : jsStartsWith mstr pathStart = true
      · rw [if_pos hs]
        exact mem_updateEntry norm mid m ann.featureId f k h
      · rw [if_neg hs]
        exact h

/-- Membership survives a whole `#updateFeatureIdMap` step. -/
theorem mem_updateMap (style pathStart : String) (norm : String → String)
    (prop : Option IdValue) (m : FeatureIdMap) (ann : FeatureAnn)
    (missingId : Option String) (f : Nat) (k : String)
    (h : f ∈ (fimGet m k).getD []) :
    f ∈ (fimGet (updateFeatureIdMap style pathStart norm prop m ann missingId) k).getD [] := by
  unfold updateFeatureIdMap
  by_cases hex : (decide (style ≠ CENTRELINE_STYLE) && ann.centreline) = true
  · rw [if_pos hex]
    exact h
  · rw [if_neg hex]
    cases prop with
    | none => exact mem_updateMissing pathStart norm m ann missingId f k h
    | some pv =>
        dsimp only
        by_cases hl : pv.jsLength ≠ 0
        · rw [if_pos hl]
          cases pv with
          | one pid => exact mem_updateEntry norm pid m ann.featureId f k h
          | many ids => exact mem_foldEntries norm ann.featureId f k ids m h
        · rw [if_neg hl]
          exact mem_updateMissing pathStart norm m ann missingId f k h

/-- Membership in the taxon index survives indexing any further
annotations. -/
theorem taxonIndex_fold_mono (style pathStart : String)
    (norm : String → String) (k : String) (f : Nat) :
    ∀ (l : List (Nat × FeatureAnn)) (st : MapIndexes),
      f ∈ (fimGet st.taxonToFeatureIds k).getD [] →
      f ∈ (fimGet ((l.foldl
          (fun s fa => saveAnn style pathStart norm s fa.1 fa.2) st)).taxonToFeatureIds k).getD [] := by
  intro l
  induction l with
  | nil => exact fun st h => h
  | cons fa l ih =>
      intro st h
      exact ih _ (mem_updateMap style pathStart norm _ st.taxonToFeatureIds
        { fa.2 with featureId := fa.1 } _ f k h)

/-- An annotation with a path-model id and no (or empty) taxons files its
feature id under the fallback unclassified-taxon key at indexing time. -/
theorem taxonIndex_insert (style pathStart : String) (norm : String → String)
    (m : FeatureIdMap) (ann : FeatureAnn) (mstr : String)
    (hfid : ann.featureId ≠ 0)
    (hincl : style = CENTRELINE_STYLE ∨ ann.centreline = false)
    (hm : ann.models = some mstr) (hstart : jsStartsWith mstr pathStart = true)
    (htax : ann.taxons = none ∨ ∃ pv, ann.taxons = some pv ∧ pv.jsLength = 0) :
    ann.featureId ∈ (fimGet (updateFeatureIdMap style pathStart norm ann.taxons m ann
        (some UNCLASSIFIED_TAXON_ID)) (norm UNCLASSIFIED_TAXON_ID)).getD [] := by
  have hex : ¬ ((decide (style ≠ CENTRELINE_STYLE) && ann.centreline) = true) := by
    rcases hincl with h | h <;> simp [h]
  have hmiss : ann.featureId ∈ (fimGet (updateFeatureIdMapMissing pathStart norm m ann
      (some UNCLASSIFIED_TAXON_ID)) (norm UNCLASSIFIED_TAXON_ID)).getD [] := by
    unfold updateFeatureIdMapMissing
    simp only [hm]
    rw [if_pos hstart]
    rw [fimGet_updateEntry_self norm UNCLASSIFIED_TAXON_ID m ann.featureId hfid]
    simp
  unfold updateFeatureIdMap
  rw [if_neg hex]
  rcases htax with ht | ⟨pv, ht, hlen⟩
  · rw [ht]
    exact hmiss
  · rw [ht]
    dsimp only
    rw [if_neg (by simp [hlen])]
    exact hmiss

/-- C6 amended: every annotation actually included in the indices (a
nonzero feature id, not centreline-excluded) whose `models` value starts
with the path marker and whose `taxons` property is absent or empty is
registered under, and discoverable by taxon lookup of, the fallback
unclassified-taxon identifier. -/
theorem C6_unclassified_taxon_fallback (style pathStart : String)
    (norm : String → String) (anns : List (Nat × FeatureAnn)) (fid : Nat)
    (ann : FeatureAnn) (mstr : String) (hmem : (fid, ann) ∈ anns)
    (hfid : fid ≠ 0)
    (hincl : style = CENTRELINE_STYLE ∨ ann.centreline = false)
    (hm : ann.models = some mstr) (hstart : jsStartsWith mstr pathStart = true)
    (htax : ann.taxons = none ∨ ∃ pv, ann.taxons = some pv ∧ pv.jsLength = 0) :
    fid ∈ taxonFeatureIds norm (buildIndexes style pathStart norm anns)
      UNCLASSIFIED_TAXON_ID := by
  suffices hgen : ∀ (l : List (Nat × FeatureAnn)) (st : MapIndexes), (fid, ann) ∈ l →
      fid ∈ (fimGet ((l.foldl
          (fun s fa => saveAnn style pathStart norm s fa.1 fa.2) st)).taxonToFeatureIds
        (norm UNCLASSIFIED_TAXON_ID)).getD [] by
    exact hgen anns {} hmem
  intro l
  induction l with
  | nil => intro st h; cases h
  | cons fa l ih =>
      intro st h
      rcases List.mem_cons.mp h with heq | hmem2
      · subst heq
        refine taxonIndex_fold_mono style pathStart norm _ fid l _ ?_
        have hins := taxonIndex_insert style pathStart norm st.taxonToFeatureIds
          { ann with featureId := fid } mstr hfid hincl hm hstart
          (by rcases htax with h1 | ⟨pv, h1, h2⟩
              · exact Or.inl h1
              · exact Or.inr ⟨pv, h1, h2⟩)
        exact hins
      · exact ih _ hmem2

/-- C6 counterexample: the claim quantifies over every annotation, but an
annotation whose feature id is `0` falls through the JS truthiness guard
in `#updateFeatureIdMapEntry`: its `models` starts with the path marker
and it has no `taxons`, yet the fallback taxon key records nothing. -/
theorem C6_zero_feature_id_counterexample :
    jsStartsWith "ilxtr:neuron-path" "ilxtr:" = true ∧
    taxonFeatureIds (fun s => s)
      (buildIndexes "anatomical" "ilxtr:" (fun s => s)
        [(0, { models := some "ilxtr:neuron-path" })]) UNCLASSIFIED_TAXON_ID = [] := by
  constructor <;> decide

/-- Witness for C6 at a concrete input: feature 5, with a path model and
no taxons, is discoverable under the fallback taxon identifier. -/
theorem C6_unclassified_taxon_fallback_witness :
    5 ∈ taxonFeatureIds (fun s => s)
      (buildIndexes "anatomical" "ilxtr:" (fun s => s)
        [(5, { models := some "ilxtr:neuron-path" })]) UNCLASSIFIED_TAXON_ID :=
  C6_unclassified_taxon_fallback "anatomical" "ilxtr:" (fun s => s)
    [(5, { models := some "ilxtr:neuron-path" })] 5
    { models := some "ilxtr:neuron-path" } "ilxtr:neuron-path"
    (List.mem_singleton_self _) (by decide) (Or.inr rfl) rfl (by decide)
    (Or.inl rfl)

/-! Claim C1. -/

/-- A style-filter head other than the four simplifiable operators makes
the compiled expression non-simplifiable. -/
theorem simplifiable_of_head (s : String) (rest : List SExpr)
    (h1 : s ≠ "has") (h2 : s ≠ "!has") (h3 : s ≠ "==") (h4 : s ≠ "!=") :
    simplifiable (SExpr.lit (.str s) :: rest) = false := by
  match rest with
  | [] => rfl
  | [a] => simp [simplifiable, h1, h2]
  | [a, b] => simp [simplifiable, h3, h4]
  | a :: b :: c :: t => rfl

/-- The `NOT` branch wraps any compiled expression with a
non-simplifiable head generically. -/
theorem negArr_of_head (s : String) (rest : List SExpr)
    (h1 : s ≠ "has") (h2 : s ≠ "!has") (h3 : s ≠ "==") (h4 : s ≠ "!=") :
    negArr (SExpr.lit (.str s) :: rest) =
      [strLit "!", SExpr.arr (SExpr.lit (.str s) :: rest)] :=
  negArr_generic _ (simplifiable_of_head s rest h1 h2 h3 h4)

/-- Evaluating the compiled per-value equality disjunction of a
list-valued key expression agrees with membership of the scalar property
value. -/
theorem evalDisj_eqList (p : Props) (k : String) (pv : JSValue)
    (hget : getProp p k = some (.scalar pv)) (vs : List JSValue) :
    evalDisj p (vs.map (fun v => SExpr.arr [strLit "==", strLit k, SExpr.lit v])) =
      decide (pv ∈ vs) := by
  induction vs with
  | nil => rfl
  | cons v vs ih =>
      simp only [List.map_cons, evalDisj, ih]
      have hv : evalStyle p (SExpr.arr [strLit "==", strLit k, SExpr.lit v]) =
          decide (pv = v) := by
        simp [evalStyle, comparisonOperands, strLit, propScalarEq, hget]
      rw [hv]
      simp [List.mem_cons]

/-- Reduction of the style evaluation on a `has` expression. -/
theorem evalStyle_hasOp (p : Props) (k : String) :
    evalStyle p (SExpr.arr [strLit "has", strLit k]) = hasKey p k := by
  simp [evalStyle, keyOperand, strLit]

/-- Reduction of the style evaluation on a `!has` expression. -/
theorem evalStyle_nhasOp (p : Props) (k : String) :
    evalStyle p (SExpr.arr [strLit "!has", strLit k]) = ! hasKey p k := by
  simp [evalStyle, keyOperand, strLit]

/-- Reduction of the style evaluation on an `==` comparison. -/
theorem evalStyle_eqOp (p : Props) (k : String) (v : JSValue) :
    evalStyle p (SExpr.arr [strLit "==", strLit k, SExpr.lit v]) =
      propScalarEq p k v := by
  simp [evalStyle, comparisonOperands, strLit]

/-- Reduction of the style evaluation on a `!=` comparison. -/
theorem evalStyle_neOp (p : Props) (k : String) (v : JSValue) :
    evalStyle p (SExpr.arr [strLit "!=", strLit k, SExpr.lit v]) =
      ! propScalarEq p k v := by
  simp [evalStyle, comparisonOperands, strLit]

/-- Reduction of the style evaluation on a generic negation. -/
theorem evalStyle_bangOp (p : Props) (e : SExpr) :
    evalStyle p (SExpr.arr [strLit "!", e]) = ! evalStyle p e := by
  simp [evalStyle, evalNeg, strLit]

/-- Reduction of the style evaluation on an `all` conjunction. -/
theorem evalStyle_allOp (p : Props) (rest : List SExpr) :
    evalStyle p (SExpr.arr (strLit "all" :: rest)) = evalConj p rest := by
  simp [evalStyle, strLit]

/-- Reduction of the style evaluation on an `any` disjunction. -/
theorem evalStyle_anyOp (p : Props) (rest : List SExpr) :
    evalStyle p (SExpr.arr (strLit "any" :: rest)) = evalDisj p rest := by
  simp [evalStyle, strLit]

mutual

/-- Equivalence of the two evaluation paths on well-formed filters. -/
theorem styleEquivFilter (p : Props) (f : Filter) (h : goodFilter p f = true) :
    evalStyle p (makeStyleFilter f) = matchFilter p f := by
  match f with
  | .lit b => rfl
  | .obj [] => simp [goodFilter] at h
  | .obj [e] =>
      have he : goodEntry p e = true := by simpa [goodFilter] using h
      have hmain := styleEquivEntry p e he
      simpa [makeStyleFilter, compileEntries, matchFilter, matchEntries] using hmain
  | .obj (e1 :: e2 :: es) => simp [goodFilter] at h
termination_by sizeOf f

/-- Equivalence of the two evaluation paths on one well-formed object
entry. -/
theorem styleEquivEntry (p : Props) (e : FEntry) (h : goodEntry p e = true) :
    evalStyle p (SExpr.arr (compileEntry e)) = matchEntry p e := by
  match e with
  | .andE fs =>
      simp only [goodEntry, Bool.and_eq_true, decide_eq_true_eq] at h
      obtain ⟨hlen, hgl⟩ := h
      have hconj := styleEquivConj p fs hgl
      simp only [compileEntry, if_pos hlen, matchEntry]
      rw [evalStyle_allOp]
      exact hconj
  | .orE fs =>
      simp only [goodEntry, Bool.and_eq_true, decide_eq_true_eq] at h
      obtain ⟨hlen, hgl⟩ := h
      have hdisj := styleEquivDisj p fs hgl
      simp only [compileEntry, if_pos hlen, matchEntry]
      rw [evalStyle_anyOp]
      exact hdisj
  | .hasE k =>
      exact evalStyle_hasOp p k
  | .kv k v =>
      obtain ⟨pv, hget⟩ : ∃ pv, getProp p k = some (.scalar pv) := by
        unfold goodEntry scalarKey at h
        rcases hg : getProp p k with _ | pv0
        · rw [hg] at h
          cases h
        · rcases pv0 with pv | vs
          · exact ⟨pv, rfl⟩
          · rw [hg] at h
            cases h
      have h1 : evalStyle p (SExpr.arr (compileEntry (FEntry.kv k v))) =
          propScalarEq p k v := evalStyle_eqOp p k v
      rw [h1]
      simp [matchEntry, propScalarEq, hget]
  | .kvList k vs =>
      obtain ⟨pv, hget⟩ : ∃ pv, getProp p k = some (.scalar pv) := by
        unfold goodEntry scalarKey at h
        rcases hg : getProp p k with _ | pv0
        · rw [hg] at h
          cases h
        · rcases pv0 with pv | vs'
          · exact ⟨pv, rfl⟩
          · rw [hg] at h
            cases h
      have hd := evalDisj_eqList p k pv hget vs
      have hev : evalStyle p (SExpr.arr (compileEntry (FEntry.kvList k vs))) =
          evalDisj p (vs.map (fun v => SExpr.arr [strLit "==", strLit k, SExpr.lit v])) :=
        evalStyle_anyOp p _
      rw [hev, hd]
      simp [matchEntry, hget]
  | .notE (.lit b) => simp [goodEntry] at h
  | .notE (.obj es) =>
      have hg : goodFilter p (.obj es) = true := by simpa [goodEntry] using h
      match es with
      | [] => simp [goodFilter] at hg
      | e1 :: e2 :: rest => simp [goodFilter] at hg
      | [e'] =>
          have he' : goodEntry p e' = true := by simpa [goodFilter] using hg
          have hE := styleEquivEntry p e' he'
          have hS := styleShapeEntry p e' he'
          have hceq : compileEntry (FEntry.notE (Filter.obj [e'])) =
              negArr (compileEntry e') := by
            have h1 : makeStyleFilter (Filter.obj [e']) = SExpr.arr (compileEntry e') := by
              simp [makeStyleFilter, compileEntries]
            simp [compileEntry, h1]
          have hm : matchEntry p (FEntry.notE (Filter.obj [e'])) = ! matchEntry p e' := by
            simp [matchEntry, matchFilter, matchEntries]
          rw [hceq, hm]
          rcases hS with ⟨k, hk⟩ | ⟨k, hk⟩ | ⟨k, v, hk⟩ | ⟨k, v, hk⟩ | hgen
          · rw [hk] at hE ⊢
            have hneg : negArr [strLit "has", strLit k] = [strLit "!has", strLit k] := rfl
            rw [hneg]
            rw [evalStyle_nhasOp, ← hE, evalStyle_hasOp]
          · rw [hk] at hE ⊢
            have hneg : negArr [strLit "!has", strLit k] = [strLit "has", strLit k] := rfl
            rw [hneg]
            rw [evalStyle_nhasOp] at hE
            rw [evalStyle_hasOp, ← hE, Bool.not_not]
          · rw [hk] at hE ⊢
            have hneg : negArr [strLit "==", strLit k, SExpr.lit v] =
                [strLit "!=", strLit k, SExpr.lit v] := rfl
            rw [hneg]
            rw [evalStyle_neOp, ← hE, evalStyle_eqOp]
          · rw [hk] at hE ⊢
            have hneg : negArr [strLit "!=", strLit k, SExpr.lit v] =
                [strLit "==", strLit k, SExpr.lit v] := rfl
            rw [hneg]
            rw [evalStyle_neOp] at hE
            rw [evalStyle_eqOp, ← hE, Bool.not_not]
          · rw [hgen]
            rw [evalStyle_bangOp, hE]
termination_by sizeOf e

/-- The shape inventory of compiled well-formed entries: one of the four
simplifiable comparison forms with a string key, or an expression the
`NOT` branch wraps generically. -/
theorem styleShapeEntry (p : Props) (e : FEntry) (h : goodEntry p e = true) :
    ShapeOK (compileEntry e) := by
  match e with
  | .hasE k => exact Or.inl ⟨k, rfl⟩
  | .kv k v => exact Or.inr (Or.inr (Or.inl ⟨k, v, rfl⟩))
  | .andE fs =>
      have hlen : 2 ≤ fs.length := by
        simp only [goodEntry, Bool.and_eq_true, decide_eq_true_eq] at h
        exact h.1
      refine Or.inr (Or.inr (Or.inr (Or.inr ?_)))
      simp only [compileEntry, if_pos hlen]
      exact negArr_of_head "all" _ (by decide) (by decide) (by decide) (by decide)
  | .orE fs =>
      have hlen : 2 ≤ fs.length := by
        simp only [goodEntry, Bool.and_eq_true, decide_eq_true_eq] at h
        exact h.1
      refine Or.inr (Or.inr (Or.inr (Or.inr ?_)))
      simp only [compileEntry, if_pos hlen]
      exact negArr_of_head "any" _ (by decide) (by decide) (by decide) (by decide)
  | .kvList k vs =>
      refine Or.inr (Or.inr (Or.inr (Or.inr ?_)))
      simp only [compileEntry]
      exact negArr_of_head "any" _ (by decide) (by decide) (by decide) (by decide)
  | .notE (.lit b) => simp [goodEntry] at h
  | .notE (.obj es) =>
      have hg : goodFilter p (.obj es) = true := by simpa [goodEntry] using h
      match es with
      | [] => simp [goodFilter] at hg
      | e1 :: e2 :: rest => simp [goodFilter] at hg
      | [e'] =>
          have he' : goodEntry p e' = true := by simpa [goodFilter] using hg
          have hS := styleShapeEntry p e' he'
          have hceq : compileEntry (FEntry.notE (Filter.obj [e'])) =
              negArr (compileEntry e') := by
            have h1 : makeStyleFilter (Filter.obj [e']) = SExpr.arr (compileEntry e') := by
              simp [makeStyleFilter, compileEntries]
            simp [compileEntry, h1]
          rw [hceq]
          rcases hS with ⟨k, hk⟩ | ⟨k, hk⟩ | ⟨k, v, hk⟩ | ⟨k, v, hk⟩ | hgen
          · rw [hk]
            exact Or.inr (Or.inl ⟨k, rfl⟩)
          · rw [hk]
            exact Or.inl ⟨k, rfl⟩
          · rw [hk]
            exact Or.inr (Or.inr (Or.inr (Or.inl ⟨k, v, rfl⟩)))
          · rw [hk]
            exact Or.inr (Or.inr (Or.inl ⟨k, v, rfl⟩))
          · rw [hgen]
            refine Or.inr (Or.inr (Or.inr (Or.inr ?_)))
            exact negArr_of_head "!" _ (by decide) (by decide) (by decide) (by decide)
termination_by sizeOf e

/-- Equivalence of the compiled conjunction with the AND-reduce. -/
theorem styleEquivConj (p : Props) (fs : List Filter) (h : goodList p fs = true) :
    evalConj p (compileList fs) = matchAll p fs := by
  match fs with
  | [] => rfl
  | f :: fs =>
      obtain ⟨h1, h2⟩ : goodFilter p f = true ∧ goodList p fs = true := by
        simpa [goodList] using h
      have hf := styleEquivFilter p f h1
      have hrest := styleEquivConj p fs h2
      simp [compileList, evalConj, matchAll, hf, hrest]
termination_by sizeOf fs

/-- Equivalence of the compiled disjunction with the OR-reduce. -/
theorem styleEquivDisj (p : Props) (fs : List Filter) (h : goodList p fs = true) :
    evalDisj p (compileList fs) = matchAny p fs := by
  match fs with
  | [] => rfl
  | f :: fs =>
      obtain ⟨h1, h2⟩ : goodFilter p f = true ∧ goodList p fs = true := by
        simpa [goodList] using h
      have hf := styleEquivFilter p f h1
      have hrest := styleEquivDisj p fs h2
      simp [compileList, evalDisj, matchAny, hf, hrest]
termination_by sizeOf fs

end

/-- C1 counterexample: the claim asserts evaluation-path equivalence for
every filter and dictionary, but a key/value node whose key is absent
matches under `match` (permissive default) while its compiled
`['==', k, v]` comparison fails under the renderer semantics: the filter
`{prop: 1}` against the empty dictionary yields `true` versus `false`. -/
theorem C1_missing_key_counterexample :
    matchFilter [] (.obj [.kv "prop" (.num 1)]) = true ∧
    evalStyle [] (makeStyleFilter (.obj [.kv "prop" (.num 1)])) = false := by
  constructor <;> decide

/-- C1 amended: for every property dictionary `p` and filter `f` that is
well formed for `p` (single-entry object nodes, `AND`/`OR` arity at least
two, `NOT` over object nodes, and every tested key present in `p` with a
scalar value), evaluating the compiled style filter under the renderer's
stated semantics agrees with `match`. -/
theorem C1_style_refinement (p : Props) (f : Filter)
    (h : goodFilter p f = true) :
    evalStyle p (makeStyleFilter f) = matchFilter p f :=
  styleEquivFilter p f h

/-- Witness for C1 at the spec's own example: the filter
`{AND: [{kind: 'nerve'}, {HAS: 'colour'}]}` against
`{kind: 'nerve', colour: 'red'}` evaluates to `true` along both paths. -/
theorem C1_style_refinement_witness :
    evalStyle
        [("kind", PValue.scalar (.str "nerve")), ("colour", PValue.scalar (.str "red"))]
        (makeStyleFilter (.obj [.andE [.obj [.kv "kind" (.str "nerve")],
          .obj [.hasE "colour"]]])) =
      matchFilter
        [("kind", PValue.scalar (.str "nerve")), ("colour", PValue.scalar (.str "red"))]
        (.obj [.andE [.obj [.kv "kind" (.str "nerve")], .obj [.hasE "colour"]]]) ∧
    matchFilter
        [("kind", PValue.scalar (.str "nerve")), ("colour", PValue.scalar (.str "red"))]
        (.obj [.andE [.obj [.kv "kind" (.str "nerve")], .obj [.hasE "colour"]]]) = true :=
  ⟨C1_style_refinement
      [("kind", PValue.scalar (.str "nerve")), ("colour", PValue.scalar (.str "red"))]
      (.obj [.andE [.obj [.kv "kind" (.str "nerve")], .obj [.hasE "colour"]]])
      (by decide),
   by decide⟩

end FlatmapViewer
